import Mathlib

/-!
Verification of the Homebase task-lifecycle engine.

The definitions below are a shallow embedding of the TypeScript source:
the pure helpers of `src/utils/brainSort.ts`, the engine functions of the
home screen (`autosurfaceDueLaterToOnDeck`, `loadFromStorage`,
`completeOnDeck`, `undoLastComplete`, `addReviewToHomebase`), and the
display sort of `OnDeckScreen.tsx`.  JavaScript strings are modelled as
Lean `String` (both compare lexicographically by code point on the ASCII
date keys and titles involved), `undefined`-able fields as `Option`, and
the async store reads as explicit inputs.
-/

namespace Homebase

/-- Category enum `BrainCategory` from `App.tsx`. -/
inductive BrainCategory where
  | Errands | Calls | Groceries | Home | Kids | Meals | Admin | Ideas | Someday
  deriving DecidableEq, Repr

/-- Bucket enum `WhenBucket` from `App.tsx`. -/
inductive WhenBucket where
  | Today | Later
  deriving DecidableEq, Repr

/-- Plan tag of an on-deck task (`"today" | "upnext"`). -/
inductive Plan where
  | today | upnext
  deriving DecidableEq, Repr

/-- Urgency tag from `App.tsx` (unused by the engine logic). -/
inductive Urgency where
  | low | normal | urgent
  deriving DecidableEq, Repr

/-- On-deck / routine task record (`Task` in `App.tsx`). -/
structure Task where
  id : Nat
  title : String
  done : Bool
  category : Option BrainCategory := none
  dueDateKey : Option String := none
  plan : Option Plan := none
  urgency : Option Urgency := none
  deriving DecidableEq, Repr

/-- Draft / backlog ("Later") item record (`DraftTask` in `App.tsx`). -/
structure DraftTask where
  id : String
  title : String
  category : BrainCategory
  bucket : WhenBucket
  dueDateKey : Option String := none
  urgency : Option Urgency := none
  deriving DecidableEq, Repr

/-- Archived completion record (`ArchivedTask` in `App.tsx`). -/
structure ArchivedTask where
  id : String
  title : String
  category : Option BrainCategory := none
  completedDateKey : String
  deriving DecidableEq, Repr

/-- Modelled JS builtin: `String.prototype.toLowerCase`, which on the
ASCII keyword/title strings used here lowercases each character. -/
def toLowerCase (s : String) : String :=
  ⟨s.data.map Char.toLower⟩

/-- Modelled JS builtin: `String.prototype.trim` (ASCII whitespace). -/
def trimStr (s : String) : String :=
  ⟨((s.data.dropWhile Char.isWhitespace).reverse.dropWhile Char.isWhitespace).reverse⟩

/-- Boolean lexicographic comparison of character lists, mirroring the
code-unit comparison JavaScript performs for `<` on strings. -/
def ltChars : List Char → List Char → Bool
  | _, [] => false
  | [], _ :: _ => true
  | a :: as, b :: bs => if a < b then true else if b < a then false else ltChars as bs

/-- Modelled JS builtin: the string relation `a < b`. -/
def stringLt (a b : String) : Bool :=
  ltChars a.data b.data

/-- Modelled JS builtin: the string relation `a <= b`, which for the
total code-unit order is the negation of `b < a`. -/
def stringLe (a b : String) : Bool :=
  !(stringLt b a)

theorem ltChars_eq_true_iff (a b : List Char) : ltChars a b = true ↔ a.lt b := by
  induction a generalizing b with
  | nil =>
    cases b with
    | nil => exact iff_of_false (by simp [ltChars]) (fun h => by cases h)
    | cons y ys => exact iff_of_true rfl (List.lt.nil y ys)
  | cons x xs ih =>
    cases b with
    | nil => exact iff_of_false (by simp [ltChars]) (fun h => by cases h)
    | cons y ys =>
      by_cases hxy : x < y
      · exact iff_of_true (by simp [ltChars, hxy]) (List.lt.head _ _ hxy)
      · by_cases hyx : y < x
        · refine iff_of_false (by simp [ltChars, hxy, hyx]) (fun h => ?_)
          cases h with
          | head _ _ h => exact hxy h
          | tail _ h2 _ => exact h2 hyx
        · rw [show ltChars (x :: xs) (y :: ys) = ltChars xs ys from by simp [ltChars, hxy, hyx]]
          rw [ih ys]
          constructor
          · exact fun h => List.lt.tail hxy hyx h
          · intro h
            cases h with
            | head _ _ h => exact absurd h hxy
            | tail _ _ h => exact h

theorem stringLt_eq_true_iff (a b : String) : stringLt a b = true ↔ a < b := by
  rw [String.lt_iff_toList_lt]
  exact (ltChars_eq_true_iff a.data b.data).trans (List.lt_iff_lex_lt a.data b.data)

theorem stringLe_eq_true_iff (a b : String) : stringLe a b = true ↔ a ≤ b := by
  rw [show stringLe a b = !(stringLt b a) from rfl, Bool.not_eq_true']
  constructor
  · intro hf
    refine not_lt.mp (fun hlt => ?_)
    rw [(stringLt_eq_true_iff b a).mpr hlt] at hf
    exact Bool.noConfusion hf
  · intro hle
    cases hx : stringLt b a
    · rfl
    · exact absurd ((stringLt_eq_true_iff b a).mp hx) (not_lt.mpr hle)

/-- Boolean infix test on character lists (JS `String.prototype.includes`
restricted to the ASCII strings used here). -/
def listInfix (needle : List Char) : List Char → Bool
  | [] => needle == []
  | c :: rest => needle.isPrefixOf (c :: rest) || listInfix needle rest

/-- Modelled JS builtin: `haystack.includes(needle)`. -/
def strIncludes (haystack needle : String) : Bool :=
  listInfix needle.data haystack.data

/-- Helper `containsAny` from `brainSort.ts`:
`words.some((w) => s.includes(w))`. -/
def containsAny (s : String) (words : List String) : Bool :=
  words.any (fun w => strIncludes s w)

/-- Function `guessBucket` from `brainSort.ts`. -/
def guessBucket (title : String) : WhenBucket :=
  let s := toLowerCase title
  if containsAny s ["today", "tonight", "before bed", "this morning", "asap"] then .Today
  else if containsAny s ["tomorrow"] then .Today
  else .Later

/-- Function `guessCategory` from `brainSort.ts`. -/
def guessCategory (title : String) : BrainCategory :=
  let s := toLowerCase title
  if containsAny s ["grocery", "groceries", "costco", "walmart", "heb", "target", "shopping", "buy "] then .Groceries
  else if containsAny s ["milk", "eggs", "bread", "chicken", "ground beef", "produce", "snacks"] then .Groceries
  else if containsAny s ["call", "text", "email", "dm", "message", "reply"] then .Calls
  else if containsAny s ["return", "pickup", "pick up", "drop off", "post office", "ups", "fedex", "ship", "deliver"] then .Errands
  else if containsAny s ["school", "teacher", "permission slip", "field trip", "practice", "game", "uniform", "daycare", "pediatric", "dentist"] then .Kids
  else if containsAny s ["laundry", "dishes", "clean", "vacuum", "mop", "trash", "kitchen reset", "wipe", "organize"] then .Home
  else if containsAny s ["dinner", "meal", "recipe", "cook", "prep", "marinate"] then .Meals
  else if containsAny s ["bill", "pay", "invoice", "bank", "budget", "renew", "insurance", "appointment", "schedule"] then .Admin
  else if containsAny s ["idea", "maybe", "would be nice", "plan"] then .Ideas
  else .Someday

/-- Function `inferCategory` from the home screen (`HomebaseScreen`),
used by the inline brain-dump review flow. -/
def inferCategory (title : String) : BrainCategory :=
  let t := toLowerCase title
  if containsAny t ["call", "phone", "text", "email", "message"] then .Calls
  else if containsAny t ["grocery", "groceries", "costco", "walmart", "target", "heb", "kroger"] then .Groceries
  else if containsAny t ["kid", "kids", "school", "teacher", "practice", "game", "daycare"] then .Kids
  else if containsAny t ["dinner", "lunch", "breakfast", "meal", "cook", "recipe"] then .Meals
  else if containsAny t ["return", "errand", "drop off", "pickup", "post office", "ups", "fedex"] then .Errands
  else if containsAny t ["bill", "invoice", "budget", "tax", "paperwork", "form", "appointment", "renew"] then .Admin
  else if containsAny t ["clean", "laundry", "dishes", "vacuum", "mop", "organize", "declutter"] then .Home
  else .Ideas

/-- Ordered keyword table of `guessCategory`, as data: the groups are
listed in the source order, each paired with the category it selects. -/
def guessCategoryTable : List (List String × BrainCategory) :=
  [(["grocery", "groceries", "costco", "walmart", "heb", "target", "shopping", "buy "], .Groceries),
   (["milk", "eggs", "bread", "chicken", "ground beef", "produce", "snacks"], .Groceries),
   (["call", "text", "email", "dm", "message", "reply"], .Calls),
   (["return", "pickup", "pick up", "drop off", "post office", "ups", "fedex", "ship", "deliver"], .Errands),
   (["school", "teacher", "permission slip", "field trip", "practice", "game", "uniform", "daycare", "pediatric", "dentist"], .Kids),
   (["laundry", "dishes", "clean", "vacuum", "mop", "trash", "kitchen reset", "wipe", "organize"], .Home),
   (["dinner", "meal", "recipe", "cook", "prep", "marinate"], .Meals),
   (["bill", "pay", "invoice", "bank", "budget", "renew", "insurance", "appointment", "schedule"], .Admin),
   (["idea", "maybe", "would be nice", "plan"], .Ideas)]

/-- Ordered keyword table of `inferCategory`, in its own source order. -/
def inferCategoryTable : List (List String × BrainCategory) :=
  [(["call", "phone", "text", "email", "message"], .Calls),
   (["grocery", "groceries", "costco", "walmart", "target", "heb", "kroger"], .Groceries),
   (["kid", "kids", "school", "teacher", "practice", "game", "daycare"], .Kids),
   (["dinner", "lunch", "breakfast", "meal", "cook", "recipe"], .Meals),
   (["return", "errand", "drop off", "pickup", "post office", "ups", "fedex"], .Errands),
   (["bill", "invoice", "budget", "tax", "paperwork", "form", "appointment", "renew"], .Admin),
   (["clean", "laundry", "dishes", "vacuum", "mop", "organize", "declutter"], .Home)]

/-- First-match lookup over an ordered keyword table: returns the
category of the first group with a (case-insensitively matched) keyword
occurring in the lowercased input, and the default when none matches. -/
def firstMatch (table : List (List String × BrainCategory)) (s : String) (dflt : BrainCategory) : BrainCategory :=
  match table with
  | [] => dflt
  | (ws, c) :: rest => if containsAny s ws then c else firstMatch rest s dflt

/-- Helper `normTitle` from the home screen: `s.trim().toLowerCase()`. -/
def normTitle (s : String) : String :=
  toLowerCase (trimStr s)

/-- Recursive worker for `normalizeOnDeckIds`, assigning ids from `n`. -/
def normalizeFrom (n : Nat) : List Task → List Task
  | [] => []
  | t :: ts => { t with id := n } :: normalizeFrom (n + 1) ts

/-- Function `normalizeOnDeckIds` from the home screen and
`OnDeckScreen.tsx`: `tasks.map((t, idx) => ({ ...t, id: idx + 1 }))`. -/
def normalizeOnDeckIds (tasks : List Task) : List Task :=
  normalizeFrom 1 tasks

/-- Truthiness-guarded comparison `d && d <= tk` on an optional string,
as JavaScript evaluates it (an absent or empty string is falsy). -/
def jsTruthyLe (d : Option String) (tk : String) : Bool :=
  match d with
  | none => false
  | some s => !(s == "") && stringLe s tk

/-- Truthiness-guarded comparison `d && d < tk` on an optional string. -/
def jsTruthyLt (d : Option String) (tk : String) : Bool :=
  match d with
  | none => false
  | some s => !(s == "") && stringLt s tk

/-- Truthiness of an optional string as JavaScript sees it. -/
def jsTruthy (d : Option String) : Bool :=
  match d with
  | none => false
  | some s => !(s == "")

/-- Seed list `DEFAULT_ON_DECK` from the home screen. -/
def DEFAULT_ON_DECK : List Task :=
  [{ id := 1, title := "Call dentist", done := false, plan := some .upnext, category := some .Calls },
   { id := 2, title := "Sign permission slip", done := false, plan := some .today, category := some .Kids },
   { id := 3, title := "Return Amazon package", done := false, plan := some .upnext, category := some .Errands }]

/-- Seed list `DEFAULT_RHYTHM` from the home screen. -/
def DEFAULT_RHYTHM : List Task :=
  [{ id := 101, title := "Make beds", done := false },
   { id := 102, title := "Kitchen reset", done := false },
   { id := 103, title := "Move my body", done := false }]

/-- Result record of `autosurfaceDueLaterToOnDeck`. -/
structure SurfaceResult where
  nextOnDeck : List Task
  nextLater : List DraftTask
  moved : Bool
  deriving DecidableEq, Repr

/-- Task built from a surfaced backlog item in
`autosurfaceDueLaterToOnDeck` (the object literal of its `.map`). -/
def surfacedTaskOf (tk : String) (d : DraftTask) : Task :=
  { id := 999999, title := d.title, done := false, category := some d.category,
    dueDateKey := d.dueDateKey,
    plan := some (if d.dueDateKey == some tk then Plan.today else Plan.upnext) }

/-- Function `autosurfaceDueLaterToOnDeck` from the home screen, with
the clock read `todayKeyLocal()` lifted into the parameter `tk`.  The
JS `Set` of normalized on-deck titles is modelled by a list with
`contains`. -/
def autosurfaceDueLaterToOnDeck (existingOnDeck : List Task) (existingLater : List DraftTask) (tk : String) : SurfaceResult :=
  let due := existingLater.filter (fun t => jsTruthyLe t.dueDateKey tk)
  if due.length = 0 then ⟨existingOnDeck, existingLater, false⟩
  else
    ⟨normalizeOnDeckIds
        ((due.filter (fun d =>
            !((existingOnDeck.map (fun t => normTitle t.title)).contains (normTitle d.title)))).map
              (surfacedTaskOf tk)
          ++ existingOnDeck),
     existingLater.filter (fun t => !(jsTruthyLe t.dueDateKey tk)), true⟩

/-- Task built from a confirmed review draft in `addReviewToHomebase`
(the object literal of its `.map`). -/
def reviewTaskOf (todayKey : String) (d : DraftTask) : Task :=
  { id := 999999, title := d.title, done := false, category := some d.category,
    dueDateKey := d.dueDateKey,
    plan := some (if jsTruthy d.dueDateKey && d.dueDateKey == some todayKey
                  then Plan.today else Plan.upnext) }

/-- Function `addReviewToHomebase` from the home screen: merges the
review drafts into the on-deck list re-read from storage
(`existingOnDeck`), dropping drafts whose normalized title is already
on deck, prepending the survivors and re-indexing. -/
def addReviewToHomebase (reviewDrafts : List DraftTask) (existingOnDeck : List Task) (todayKey : String) : List Task :=
  normalizeOnDeckIds
    ((reviewDrafts.filter (fun d =>
        !((existingOnDeck.map (fun t => normTitle t.title)).contains (normTitle d.title)))).map
          (reviewTaskOf todayKey)
      ++ existingOnDeck)

/-- Pending undo payload (`UndoPayload` in the source). -/
structure UndoPayload where
  task : Task
  archivedId : String
  deriving DecidableEq, Repr

/-- Joint engine state touched by complete/undo: the persisted on-deck
list, the persisted archive list, and the in-memory undo slot. -/
structure EngineState where
  deck : List Task
  archive : List ArchivedTask
  undo : Option UndoPayload
  deriving DecidableEq, Repr

/-- Function `completeOnDeck` from the home screen (same logic as
`completeTask` in `OnDeckScreen.tsx`): the generated archive id and the
clock read are lifted into the parameters `archivedId` and `tk`.  The
happy path of the archive read is modelled; `showUndo` is modelled by
filling the undo slot. -/
def completeOnDeck (deck : List Task) (archive : List ArchivedTask) (undo0 : Option UndoPayload) (taskId : Nat) (tk : String) (archivedId : String) : EngineState :=
  match deck.find? (fun t => t.id == taskId) with
  | none => ⟨deck, archive, undo0⟩
  | some task =>
    let next := deck.filter (fun t => !(t.id == taskId))
    let archived : ArchivedTask :=
      { id := archivedId, title := task.title, category := task.category, completedDateKey := tk }
    ⟨next, archived :: archive, some ⟨task, archivedId⟩⟩

/-- Function `undoLastComplete` from the home screen (same logic as in
`OnDeckScreen.tsx`): re-inserts the payload task at the front, deletes
the matching archive entry by id, and clears the undo slot. -/
def undoLastComplete (deck : List Task) (archive : List ArchivedTask) (undo0 : Option UndoPayload) : EngineState :=
  match undo0 with
  | none => ⟨deck, archive, undo0⟩
  | some p =>
    ⟨normalizeOnDeckIds (p.task :: deck),
     archive.filter (fun x => !(x.id == p.archivedId)), none⟩

/-- Derived recap counter: archive entries completed on `tk` plus done
routine items (`computeRecap` fed by `loadArchiveCountOnly`). -/
def completedToday (tk : String) (archive : List ArchivedTask) (rhythm : List Task) : Nat :=
  (archive.filter (fun x => x.completedDateKey == tk)).length + (rhythm.filter (fun t => t.done)).length

/-- Result of the daily-rhythm reset step: the items handed to the UI
and the value written to the last-reset key (`none` when no write). -/
structure RhythmLoad where
  items : List Task
  persistedReset : Option String
  deriving DecidableEq, Repr

/-- Daily-rhythm reset step of `loadFromStorage` (the spec operation
`loadWithReset`): `needsReset = !rawRhythmReset || rawRhythmReset !==
rhythmKey`; on reset, all done flags are cleared and `lastReset = tk`
is persisted together with the cleared list; otherwise nothing is
written. -/
def loadRhythmWithReset (rhythm : List Task) (rawRhythmReset : Option String) (tk : String) : RhythmLoad :=
  let needsReset :=
    match rawRhythmReset with
    | none => true
    | some s => (s == "") || !(s == tk)
  if needsReset then ⟨rhythm.map (fun t => { t with done := false }), some tk⟩
  else ⟨rhythm, none⟩

/-- Outcome of one `AsyncStorage.getItem` + `JSON.parse` round for a
key holding a value of type `α`: the read itself may reject
(`failed`), return null (`missing`), return a string the parser throws
on (`malformed`), or decode to a value. -/
inductive RawValue (α : Type) where
  | failed
  | missing
  | malformed
  | val (a : α)
  deriving DecidableEq, Repr

/-- Unguarded decode `raw ? JSON.parse(raw) : dflt`: a malformed value
throws out of the enclosing function (`Except.error`). -/
def parseOr {α : Type} (raw : RawValue α) (dflt : α) : Except Unit α :=
  match raw with
  | .failed => .error ()
  | .missing => .ok dflt
  | .malformed => .error ()
  | .val v => .ok v

/-- Decode wrapped in try/catch: a malformed value falls back to the
default instead of throwing. -/
def parseCaught {α : Type} (raw : RawValue α) (dflt : α) : α :=
  match raw with
  | .val v => v
  | _ => dflt

/-- Shopping-list item from the home screen. -/
structure ShoppingItem where
  id : String
  text : String
  done : Bool
  deriving DecidableEq, Repr

/-- Snapshot of the persisted keys read by `loadFromStorage` (the
eight reads of its `Promise.all`, plus the archive key read later by
`loadArchiveCountOnly`). -/
structure StoreSnap where
  rawOnDeck : RawValue (List Task)
  rawLater : RawValue (List DraftTask)
  rawRhythm : RawValue (List Task)
  rawRhythmReset : RawValue String
  rawTonightMode : RawValue String
  rawTonightRecipe : RawValue Unit
  rawTonightRecipeDate : RawValue String
  rawShopping : RawValue (List ShoppingItem)
  rawArchive : RawValue (List ArchivedTask)
  deriving DecidableEq, Repr

/-- True when one of the reads in the `Promise.all` of
`loadFromStorage` rejected, which rejects the whole load. -/
def anyReadFailed (s : StoreSnap) : Bool :=
  s.rawOnDeck == .failed || s.rawLater == .failed || s.rawRhythm == .failed ||
  s.rawRhythmReset == .failed || s.rawTonightMode == .failed ||
  s.rawTonightRecipe == .failed || s.rawTonightRecipeDate == .failed ||
  s.rawShopping == .failed

/-- Function `loadArchiveCountOnly` from the home screen: its own
try/catch maps any read or parse failure to a count of 0. -/
def loadArchiveCountOnly (raw : RawValue (List ArchivedTask)) (tk : String) : Nat :=
  match raw with
  | .val list => (list.filter (fun x => x.completedDateKey == tk)).length
  | .missing => 0
  | .failed => 0
  | .malformed => 0

/-- Observable outcome of a successful `loadFromStorage` run. -/
structure LoadOutcome where
  deck : List Task
  later : List DraftTask
  rhythm : List Task
  rhythmResetPersisted : Option String
  completedTodayTotal : Nat
  shopping : List ShoppingItem
  deriving DecidableEq, Repr

/-- String read by `getItem` without a JSON decode (the last-reset
key): a present string, else null. -/
def resetOpt (raw : RawValue String) : Option String :=
  match raw with
  | .val v => some v
  | _ => none

/-- Success-path outcome of `loadFromStorage` once the on-deck and
later values have decoded to `deck0` and `later0`: surfacing runs,
the rhythm reset runs on the (possibly fallback) rhythm list, and the
recap and shopping list are derived. -/
def loadOutcomeOf (s : StoreSnap) (deck0 : List Task) (later0 : List DraftTask) (tk : String) : LoadOutcome :=
  { deck := (autosurfaceDueLaterToOnDeck deck0 later0 tk).nextOnDeck
    later := (autosurfaceDueLaterToOnDeck deck0 later0 tk).nextLater
    rhythm := (loadRhythmWithReset (parseCaught s.rawRhythm DEFAULT_RHYTHM)
      (resetOpt s.rawRhythmReset) tk).items
    rhythmResetPersisted := (loadRhythmWithReset (parseCaught s.rawRhythm DEFAULT_RHYTHM)
      (resetOpt s.rawRhythmReset) tk).persistedReset
    completedTodayTotal :=
      loadArchiveCountOnly s.rawArchive tk
        + (((loadRhythmWithReset (parseCaught s.rawRhythm DEFAULT_RHYTHM)
            (resetOpt s.rawRhythmReset) tk).items.filter (fun t => t.done)).length)
    shopping := parseCaught s.rawShopping ([] : List ShoppingItem) }

/-- Function `loadFromStorage` from the home screen, with the clock
reads lifted into `tk`.  The on-deck and later decodes are not guarded
by try/catch in the source, so a malformed value there (or any
rejected read in the `Promise.all`) throws; the rhythm, tonight-recipe
and shopping decodes are guarded and fall back.  Writes are reflected
in the returned outcome. -/
def loadFromStorage (s : StoreSnap) (tk : String) : Except Unit LoadOutcome :=
  if anyReadFailed s then .error ()
  else
    match parseOr s.rawOnDeck DEFAULT_ON_DECK with
    | .error e => .error e
    | .ok deck0 =>
      match parseOr s.rawLater ([] : List DraftTask) with
      | .error e => .error e
      | .ok later0 => .ok (loadOutcomeOf s deck0 later0 tk)

/-- Modelled JS builtin: `a.localeCompare(b)` under the default locale.
The root collation compares case-insensitively at primary strength and
resolves full case-insensitive ties using the raw strings, which is the
behaviour modelled here for the ASCII titles involved. -/
def localeCompare (a b : String) : Int :=
  if toLowerCase a ≠ toLowerCase b then (if stringLt (toLowerCase a) (toLowerCase b) then -1 else 1)
  else if a = b then 0
  else if stringLt a b then -1 else 1

/-- Comparator of `openTasksSorted` in `OnDeckScreen.tsx`: overdue
first, then due today, then ascending due key with the `"9999-99-99"`
sentinel for a missing key, then title via `localeCompare`. -/
def cmpDisplay (tk : String) (a b : Task) : Int :=
  let ao : Int := if jsTruthyLt a.dueDateKey tk then 0 else 1
  let bo : Int := if jsTruthyLt b.dueDateKey tk then 0 else 1
  if ao ≠ bo then ao - bo
  else
    let atd : Int := if a.dueDateKey == some tk then 0 else 1
    let btd : Int := if b.dueDateKey == some tk then 0 else 1
    if atd ≠ btd then atd - btd
    else
      let aKey := a.dueDateKey.getD "9999-99-99"
      let bKey := b.dueDateKey.getD "9999-99-99"
      if aKey ≠ bKey then (if stringLt aKey bKey then -1 else 1)
      else localeCompare a.title b.title

/-- Comes-before relation induced by the display comparator. -/
def dispLE (tk : String) (a b : Task) : Prop :=
  cmpDisplay tk a b ≤ 0

instance (tk : String) : DecidableRel (dispLE tk) :=
  fun a b => inferInstanceAs (Decidable (cmpDisplay tk a b ≤ 0))

/-- Composite sort key realizing the display comparator, lexicographic
over the code-level four levels (the title level split into its
case-insensitive primary and raw tiebreak parts). -/
def dispKey (tk : String) (t : Task) : Int ×ₗ Int ×ₗ String ×ₗ String ×ₗ String :=
  toLex ((if jsTruthyLt t.dueDateKey tk then (0 : Int) else 1),
    toLex ((if t.dueDateKey == some tk then (0 : Int) else 1),
      toLex (t.dueDateKey.getD "9999-99-99",
        toLex (toLowerCase t.title, t.title))))

theorem rank_step_le_iff (x y r : Int) (hx : x = 0 ∨ x = 1) (hy : y = 0 ∨ y = 1) :
    (if x ≠ y then x - y else r) ≤ 0 ↔ (x < y ∨ (x = y ∧ r ≤ 0)) := by
  rcases hx with hx | hx <;> rcases hy with hy | hy <;> subst hx <;> subst hy <;> simp

theorem stringLt_eq_false_iff (a b : String) : stringLt a b = false ↔ ¬ a < b := by
  constructor
  · intro h hlt
    rw [(stringLt_eq_true_iff a b).mpr hlt] at h
    exact Bool.noConfusion h
  · intro h
    cases hx : stringLt a b
    · rfl
    · exact absurd ((stringLt_eq_true_iff a b).mp hx) h

theorem key_step_le_iff (k l : String) (r : Int) :
    (if k ≠ l then (if stringLt k l then (-1 : Int) else 1) else r) ≤ 0 ↔
      (k < l ∨ (k = l ∧ r ≤ 0)) := by
  by_cases hkl : k = l
  · subst hkl; simp
  · by_cases hlt : k < l
    · simp [hkl, (stringLt_eq_true_iff k l).mpr hlt, hlt]
    · simp [hkl, (stringLt_eq_false_iff k l).mpr hlt, hlt]

theorem localeCompare_le_iff (a b : String) :
    localeCompare a b ≤ 0 ↔
      (toLowerCase a < toLowerCase b ∨ (toLowerCase a = toLowerCase b ∧ a ≤ b)) := by
  unfold localeCompare
  by_cases h1 : toLowerCase a = toLowerCase b
  · simp only [h1, ne_eq, not_true_eq_false, if_false, lt_self_iff_false, false_or,
      true_and]
    by_cases h2 : a = b
    · simp [h2]
    · by_cases h3 : a < b
      · simp [h2, (stringLt_eq_true_iff a b).mpr h3, le_of_lt h3]
      · have hnle : ¬ a ≤ b := fun hle => h2 (le_antisymm hle (le_of_not_lt h3))
        simp [h2, (stringLt_eq_false_iff a b).mpr h3, hnle]
  · by_cases h2 : toLowerCase a < toLowerCase b
    · simp [h1, (stringLt_eq_true_iff _ _).mpr h2, h2]
    · simp [h1, (stringLt_eq_false_iff _ _).mpr h2, h2]

theorem cmpDisplay_le_iff (tk : String) (a b : Task) :
    cmpDisplay tk a b ≤ 0 ↔ dispKey tk a ≤ dispKey tk b := by
  unfold cmpDisplay dispKey
  simp only [Prod.Lex.le_iff]
  rw [rank_step_le_iff _ _ _ (by split <;> simp) (by split <;> simp)]
  rw [rank_step_le_iff _ _ _ (by split <;> simp) (by split <;> simp)]
  rw [key_step_le_iff]
  rw [localeCompare_le_iff]

theorem dispLE_total (tk : String) (a b : Task) : dispLE tk a b ∨ dispLE tk b a := by
  unfold dispLE
  rw [cmpDisplay_le_iff, cmpDisplay_le_iff]
  exact le_total _ _

theorem dispLE_trans (tk : String) (a b c : Task) :
    dispLE tk a b → dispLE tk b c → dispLE tk a c := by
  unfold dispLE
  rw [cmpDisplay_le_iff, cmpDisplay_le_iff, cmpDisplay_le_iff]
  exact le_trans

instance (tk : String) : IsTotal Task (dispLE tk) := ⟨dispLE_total tk⟩

instance (tk : String) : IsTrans Task (dispLE tk) := ⟨dispLE_trans tk⟩

/-- Memoized sort `openTasksSorted` of `OnDeckScreen.tsx`: the open
(not-done) tasks sorted by the display comparator.  The stable JS
`Array.prototype.sort` is modelled by stable insertion sort. -/
def openTasksSorted (tk : String) (tasks : List Task) : List Task :=
  List.insertionSort (dispLE tk) (tasks.filter (fun t => !t.done))

/-! Helper lemmas about re-indexing and counting. -/

theorem normalizeFrom_length (n : Nat) (l : List Task) :
    (normalizeFrom n l).length = l.length := by
  induction l generalizing n with
  | nil => rfl
  | cons t ts ih => simp [normalizeFrom, ih]

theorem normalizeFrom_map_id (n : Nat) (l : List Task) :
    (normalizeFrom n l).map (fun t => t.id) = List.range' n l.length := by
  induction l generalizing n with
  | nil => rfl
  | cons t ts ih => simp [normalizeFrom, List.range', ih]

theorem mem_normalizeFrom_of_mem {t : Task} {l : List Task} (h : t ∈ l) (n : Nat) :
    ∃ m, { t with id := m } ∈ normalizeFrom n l := by
  induction l generalizing n with
  | nil => cases h
  | cons x xs ih =>
    rcases List.mem_cons.mp h with h | h
    · subst h
      exact ⟨n, List.mem_cons_self _ _⟩
    · rcases ih h (n + 1) with ⟨m, hm⟩
      exact ⟨m, List.mem_cons_of_mem _ hm⟩

theorem countP_normalizeFrom (p : Task → Bool) (hp : ∀ t m, p { t with id := m } = p t)
    (n : Nat) (l : List Task) :
    (normalizeFrom n l).countP p = l.countP p := by
  induction l generalizing n with
  | nil => rfl
  | cons t ts ih => simp [normalizeFrom, List.countP_cons, ih, hp]

/-- Count of tasks carrying a given normalized title. -/
def countNormTasks (l : List Task) (n : String) : Nat :=
  l.countP (fun t => normTitle t.title == n)

/-- Count of drafts carrying a given normalized title. -/
def countNormDrafts (l : List DraftTask) (n : String) : Nat :=
  l.countP (fun d => normTitle d.title == n)

theorem countNormTasks_normalizeOnDeckIds (l : List Task) (n : String) :
    countNormTasks (normalizeOnDeckIds l) n = countNormTasks l n :=
  countP_normalizeFrom (fun t => normTitle t.title == n) (fun _ _ => rfl) 1 l

theorem countNorm_toAdd (drafts : List DraftTask) (S : List String) (mk : DraftTask → Task)
    (hmk : ∀ d, (mk d).title = d.title) (n : String) :
    ((drafts.filter (fun d => !(S.contains (normTitle d.title)))).map mk).countP
        (fun t => normTitle t.title == n)
      = if S.contains n then 0 else countNormDrafts drafts n := by
  rw [List.countP_map]
  by_cases hS : S.contains n = true
  · simp only [hS, if_true]
    rw [List.countP_eq_zero]
    intro d hd
    rcases List.mem_filter.mp hd with ⟨-, hkeep⟩
    have hkf : S.contains (normTitle d.title) = false := by
      simpa using hkeep
    simp only [Function.comp, hmk]
    intro hbeq
    have hn : normTitle d.title = n := by simpa using hbeq
    rw [hn, hS] at hkf
    exact Bool.noConfusion hkf
  · have hSf : S.contains n = false := by
      simpa using hS
    simp only [hSf, Bool.false_eq_true, if_false]
    unfold countNormDrafts
    rw [List.countP_filter]
    apply List.countP_congr
    intro d _
    simp only [Function.comp, hmk, Bool.and_eq_true, Bool.not_eq_true']
    constructor
    · rintro ⟨h1, -⟩
      exact h1
    · intro h1
      refine ⟨h1, ?_⟩
      have hn : normTitle d.title = n := by simpa using h1
      rw [hn]
      exact hSf

/-- Dense-index invariant: the ids of the list are exactly `1..N` in
array order. -/
def denseIds (l : List Task) : Prop :=
  l.map (fun t => t.id) = List.range' 1 l.length

theorem denseIds_normalizeOnDeckIds (l : List Task) : denseIds (normalizeOnDeckIds l) := by
  unfold denseIds normalizeOnDeckIds
  rw [normalizeFrom_map_id, normalizeFrom_length]

theorem containsAny_append (s : String) (l1 l2 : List String) :
    containsAny s (l1 ++ l2) = (containsAny s l1 || containsAny s l2) :=
  List.any_append

/-! Claim theorems. -/

/-- C6 (counterexample): the line `"tomorrow"` contains none of the
urgency keywords `"today"`, `"asap"`, `"tonight"` listed by the claim,
yet `guessBucket` classifies it as `"Today"` (the source also treats
`"tomorrow"`, `"before bed"` and `"this morning"` as urgent), so the
claimed equivalence fails at this input. -/
theorem guessBucket_urgency_counterexample :
    guessBucket "tomorrow" = WhenBucket.Today ∧
      containsAny (toLowerCase "tomorrow") ["today", "asap", "tonight"] = false := by
  decide

/-- C6 (amended): `guessBucket` returns `"Today"` exactly when the
lowercased line contains one of the six keywords `"today"`,
`"tonight"`, `"before bed"`, `"this morning"`, `"asap"`, `"tomorrow"`,
and `"Later"` otherwise. -/
theorem guessBucket_today_iff (title : String) :
    guessBucket title = WhenBucket.Today ↔
      containsAny (toLowerCase title)
        ["today", "tonight", "before bed", "this morning", "asap", "tomorrow"] = true := by
  have hsplit : (["today", "tonight", "before bed", "this morning", "asap", "tomorrow"] : List String)
      = ["today", "tonight", "before bed", "this morning", "asap"] ++ ["tomorrow"] := rfl
  rw [hsplit, containsAny_append]
  unfold guessBucket
  cases h1 : containsAny (toLowerCase title) ["today", "tonight", "before bed", "this morning", "asap"] with
  | true => simp [h1]
  | false =>
    cases h2 : containsAny (toLowerCase title) ["tomorrow"] with
    | true => simp [h1, h2]
    | false => simp [h1, h2]

/-- C7 (counterexample): on the line `"grocery call"`, which contains
both a groceries keyword and a calls keyword, the home screen's
`inferCategory` returns `Calls`, not the `Groceries` that the claimed
groceries-first priority order (realized by `guessCategoryTable`)
produces: `inferCategory` checks its groups in a different order
(calls → groceries → kids → meals → errands → admin → home) and falls
back to `Ideas`, not to the catch-all `Someday`. -/
theorem inferCategory_order_counterexample :
    inferCategory "grocery call" = BrainCategory.Calls ∧
      firstMatch guessCategoryTable (toLowerCase "grocery call") BrainCategory.Someday
        = BrainCategory.Groceries := by
  decide

/-- C7 (amended): both classifiers are pure first-match lookups over
their own ordered keyword tables — `guessCategory` over the claimed
order groceries → calls → errands → kids → home → meals → admin →
ideas with the catch-all default `Someday`, and `inferCategory` over
the order calls → groceries → kids → meals → errands → admin → home
with the default `Ideas`. -/
theorem classifier_first_match (title : String) :
    guessCategory title = firstMatch guessCategoryTable (toLowerCase title) BrainCategory.Someday ∧
      inferCategory title = firstMatch inferCategoryTable (toLowerCase title) BrainCategory.Ideas :=
  ⟨rfl, rfl⟩

/-- C10: completing an id that does not occur in the on-deck list is a
total no-op — the on-deck list, the archive and the undo slot are all
returned unchanged, and the operation cannot fail. -/
theorem completeOnDeck_unknown_id (deck : List Task) (archive : List ArchivedTask)
    (undo0 : Option UndoPayload) (taskId : Nat) (tk archivedId : String)
    (h : ∀ t ∈ deck, t.id ≠ taskId) :
    completeOnDeck deck archive undo0 taskId tk archivedId = ⟨deck, archive, undo0⟩ := by
  unfold completeOnDeck
  have hf : deck.find? (fun t => t.id == taskId) = none := by
    rw [List.find?_eq_none]
    intro t ht
    simpa using h t ht
  rw [hf]

/-- Witness for C10 at a concrete input. -/
theorem completeOnDeck_unknown_id_witness :
    completeOnDeck [{ id := 1, title := "Call dentist", done := false }] [] none 2
        "2025-06-15" "arch-1"
      = ⟨[{ id := 1, title := "Call dentist", done := false }], [], none⟩ :=
  completeOnDeck_unknown_id _ _ _ _ _ _ (by decide)

/-- C4: the daily-rhythm load resets every done flag and persists
`lastReset = today` whenever the persisted key differs from today
(including when absent), returns the items unchanged and writes
nothing when it equals today, and is idempotent: a second call with
the same today (reading back the state the first call left) is a
no-op. -/
theorem loadRhythmWithReset_spec (items : List Task) (rawReset : Option String) (tk : String)
    (htk : tk ≠ "") :
    (rawReset ≠ some tk →
        loadRhythmWithReset items rawReset tk
          = ⟨items.map (fun t => { t with done := false }), some tk⟩)
    ∧ (rawReset = some tk → loadRhythmWithReset items rawReset tk = ⟨items, none⟩)
    ∧ loadRhythmWithReset (loadRhythmWithReset items rawReset tk).items
        (match (loadRhythmWithReset items rawReset tk).persistedReset with
         | some v => some v
         | none => rawReset) tk
      = ⟨(loadRhythmWithReset items rawReset tk).items, none⟩ := by
  have hbe : (tk == "") = false := by
    simpa using htk
  have hEq : ∀ its : List Task, loadRhythmWithReset its (some tk) tk = ⟨its, none⟩ := by
    intro its
    unfold loadRhythmWithReset
    simp [hbe]
  have hNe : rawReset ≠ some tk →
      loadRhythmWithReset items rawReset tk
        = ⟨items.map (fun t => { t with done := false }), some tk⟩ := by
    intro hne
    unfold loadRhythmWithReset
    match rawReset, hne with
    | none, _ => rfl
    | some s, hne =>
      have hs : (s == tk) = false := by
        simp only [beq_eq_false_iff_ne, ne_eq]
        intro hcontra
        exact hne (by rw [hcontra])
      simp [hs]
  refine ⟨hNe, fun he => he ▸ hEq items, ?_⟩
  by_cases hcase : rawReset = some tk
  · subst hcase
    simp [hEq]
  · rw [hNe hcase]
    exact hEq _

/-- Concrete routine list (one completed item) for the C4 witness. -/
def wRhythm : List Task :=
  [{ id := 101, title := "Make beds", done := true }]

/-- Witness for C4 at a concrete input: a stale last-reset key and one
completed routine item. -/
theorem loadRhythmWithReset_spec_witness :
    ("2025-06-15" : String) ≠ "" ∧
      ((some "2025-06-14" ≠ some "2025-06-15" →
          loadRhythmWithReset wRhythm (some "2025-06-14") "2025-06-15"
            = ⟨wRhythm.map (fun t => { t with done := false }), some "2025-06-15"⟩)
        ∧ (some "2025-06-14" = some "2025-06-15" →
            loadRhythmWithReset wRhythm (some "2025-06-14") "2025-06-15" = ⟨wRhythm, none⟩)
        ∧ loadRhythmWithReset
              (loadRhythmWithReset wRhythm (some "2025-06-14") "2025-06-15").items
              (match (loadRhythmWithReset wRhythm (some "2025-06-14") "2025-06-15").persistedReset with
               | some v => some v
               | none => some "2025-06-14") "2025-06-15"
            = ⟨(loadRhythmWithReset wRhythm (some "2025-06-14") "2025-06-15").items, none⟩) :=
  ⟨by decide, loadRhythmWithReset_spec wRhythm (some "2025-06-14") "2025-06-15" (by decide)⟩

/-- Spec-side predicate of C1: the backlog item has a due date and it
is on or before today (plain presence test, no JS truthiness). -/
def duePresentLE (d : DraftTask) (tk : String) : Bool :=
  match d.dueDateKey with
  | some k => stringLe k tk
  | none => false

theorem jsTruthyLe_eq_duePresentLE (d : DraftTask) (tk : String) (h : d.dueDateKey ≠ some "") :
    jsTruthyLe d.dueDateKey tk = duePresentLE d tk := by
  unfold jsTruthyLe duePresentLE
  cases hd : d.dueDateKey with
  | none => rfl
  | some k =>
    have hk : (k == "") = false := by
      refine beq_eq_false_iff_ne.mpr (fun he => h ?_)
      rw [hd, he]
    simp [hk]

/-- C1: auto-surfacing with today's DateKey removes from the backlog
exactly the items with a due date on or before today; each removed
item whose normalized title is not already on deck reappears in the
on-deck list with its title, category and due date, not done, and
plan `"today"` exactly when due today (else `"upnext"`); and no
normalized title already on deck gains an occurrence, so an item
deduplicated away is dropped entirely.  Items with no due date or a
future due date stay in the backlog untouched. -/
theorem autosurface_spec (deck : List Task) (later : List DraftTask) (tk : String)
    (hval : ∀ d ∈ later, d.dueDateKey ≠ some "") :
    (autosurfaceDueLaterToOnDeck deck later tk).nextLater
        = later.filter (fun d => !(duePresentLE d tk))
    ∧ (∀ d ∈ later, duePresentLE d tk = true →
        ((deck.map (fun t => normTitle t.title)).contains (normTitle d.title)) = false →
          ∃ t ∈ (autosurfaceDueLaterToOnDeck deck later tk).nextOnDeck,
            t.title = d.title ∧ t.category = some d.category ∧ t.dueDateKey = d.dueDateKey ∧
              t.done = false ∧
              t.plan = some (if d.dueDateKey == some tk then Plan.today else Plan.upnext))
    ∧ (∀ n, ((deck.map (fun t => normTitle t.title)).contains n) = true →
        countNormTasks (autosurfaceDueLaterToOnDeck deck later tk).nextOnDeck n
          = countNormTasks deck n) := by
  have hpt : ∀ d ∈ later, jsTruthyLe d.dueDateKey tk = duePresentLE d tk :=
    fun d hd => jsTruthyLe_eq_duePresentLE d tk (hval d hd)
  by_cases hc : (List.filter (fun t => jsTruthyLe t.dueDateKey tk) later).length = 0
  · have hnil : List.filter (fun t => jsTruthyLe t.dueDateKey tk) later = [] :=
      List.length_eq_zero.mp hc
    have hnone : ∀ d ∈ later, jsTruthyLe d.dueDateKey tk = false := by
      intro d hd
      have := List.filter_eq_nil_iff.mp hnil d hd
      simpa using this
    simp only [autosurfaceDueLaterToOnDeck]
    rw [if_pos hc]
    dsimp only
    refine ⟨?_, ?_, ?_⟩
    · refine (List.filter_eq_self.mpr ?_).symm
      intro d hd
      rw [← hpt d hd, hnone d hd]
      rfl
    · intro d hd hdp _
      rw [← hpt d hd, hnone d hd] at hdp
      exact Bool.noConfusion hdp
    · intro n _
      rfl
  · simp only [autosurfaceDueLaterToOnDeck]
    rw [if_neg hc]
    dsimp only
    refine ⟨?_, ?_, ?_⟩
    · exact List.filter_congr (fun d hd => by rw [hpt d hd])
    · intro d hd hdp hcont
      have hdd : d ∈ List.filter (fun t => jsTruthyLe t.dueDateKey tk) later :=
        List.mem_filter.mpr ⟨hd, by rw [hpt d hd]; exact hdp⟩
      have hdd2 : d ∈ (List.filter (fun t => jsTruthyLe t.dueDateKey tk) later).filter
          (fun d => !((deck.map (fun t => normTitle t.title)).contains (normTitle d.title))) :=
        List.mem_filter.mpr ⟨hdd, by rw [hcont]; rfl⟩
      have hmem : surfacedTaskOf tk d
          ∈ ((List.filter (fun t => jsTruthyLe t.dueDateKey tk) later).filter
              (fun d => !((deck.map (fun t => normTitle t.title)).contains
                (normTitle d.title)))).map (surfacedTaskOf tk) ++ deck :=
        List.mem_append_left _ (List.mem_map_of_mem _ hdd2)
      rcases mem_normalizeFrom_of_mem hmem 1 with ⟨m, hm⟩
      exact ⟨{ surfacedTaskOf tk d with id := m }, hm, rfl, rfl, rfl, rfl, rfl⟩
    · intro n hn
      rw [countNormTasks_normalizeOnDeckIds]
      unfold countNormTasks
      rw [List.countP_append]
      rw [countNorm_toAdd (List.filter (fun t => jsTruthyLe t.dueDateKey tk) later)
        (deck.map (fun t => normTitle t.title)) (surfacedTaskOf tk) (fun d => rfl) n]
      rw [if_pos hn]
      exact Nat.zero_add _

/-- Concrete on-deck list for the C1 witness. -/
def wC1Deck : List Task :=
  [{ id := 1, title := "Call dentist", done := false }]

/-- Concrete backlog for the C1 witness: one overdue item, one due
today, one overdue duplicate of an on-deck title, one with no due
date. -/
def wC1Later : List DraftTask :=
  [{ id := "a", title := "Pay bill", category := .Admin, bucket := .Later,
     dueDateKey := some "2025-06-14" },
   { id := "b", title := "Plan trip", category := .Ideas, bucket := .Later,
     dueDateKey := some "2025-06-15" },
   { id := "c", title := "Call Dentist", category := .Calls, bucket := .Later,
     dueDateKey := some "2025-06-10" },
   { id := "d", title := "Someday thing", category := .Someday, bucket := .Later }]

/-- Witness for C1 at a concrete input. -/
theorem autosurface_spec_witness :
    (∀ d ∈ wC1Later, d.dueDateKey ≠ some "") ∧
      ((autosurfaceDueLaterToOnDeck wC1Deck wC1Later "2025-06-15").nextLater
          = wC1Later.filter (fun d => !(duePresentLE d "2025-06-15"))
        ∧ (∀ d ∈ wC1Later, duePresentLE d "2025-06-15" = true →
            ((wC1Deck.map (fun t => normTitle t.title)).contains (normTitle d.title)) = false →
              ∃ t ∈ (autosurfaceDueLaterToOnDeck wC1Deck wC1Later "2025-06-15").nextOnDeck,
                t.title = d.title ∧ t.category = some d.category ∧ t.dueDateKey = d.dueDateKey ∧
                  t.done = false ∧
                  t.plan = some (if d.dueDateKey == some "2025-06-15"
                    then Plan.today else Plan.upnext))
        ∧ (∀ n, ((wC1Deck.map (fun t => normTitle t.title)).contains n) = true →
            countNormTasks (autosurfaceDueLaterToOnDeck wC1Deck wC1Later "2025-06-15").nextOnDeck n
              = countNormTasks wC1Deck n)) :=
  ⟨by decide, autosurface_spec wC1Deck wC1Later "2025-06-15" (by decide)⟩

/-- C2 (counterexample): completing a task does not re-index the
surviving on-deck list — `completeOnDeck` persists a plain `filter`.
Completing id 1 out of the two-task list with ids `[1, 2]` leaves the
persisted list with ids `[2]`, which is not the dense sequence `1..N`
the claim asserts after every structural mutation. -/
theorem completeOnDeck_not_reindexed :
    ¬ denseIds (completeOnDeck
        [{ id := 1, title := "a", done := false }, { id := 2, title := "b", done := false }]
        [] none 1 "2025-06-15" "arch-1").deck := by
  unfold denseIds
  decide

/-- C2 (amended): the insert mutations of the on-deck list do end in
the re-index step, so review-confirm merge, surfacing (when it moved
anything) and undo re-insert always produce ids `1..N` in array
order; the completion delete, however, only filters, which preserves
pairwise-distinct ids but can leave a gap (ids stay unique, not
dense). -/
theorem reindex_after_mutations :
    (∀ (drafts : List DraftTask) (existing : List Task) (tkey : String),
        denseIds (addReviewToHomebase drafts existing tkey))
    ∧ (∀ (deck : List Task) (later : List DraftTask) (tkey : String),
        (autosurfaceDueLaterToOnDeck deck later tkey).moved = true →
          denseIds (autosurfaceDueLaterToOnDeck deck later tkey).nextOnDeck)
    ∧ (∀ (deck : List Task) (archive : List ArchivedTask) (p : UndoPayload),
        denseIds (undoLastComplete deck archive (some p)).deck)
    ∧ (∀ (deck : List Task) (archive : List ArchivedTask) (undo0 : Option UndoPayload)
        (taskId : Nat) (tkey archivedId : String),
        (deck.map (fun t => t.id)).Nodup →
          ((completeOnDeck deck archive undo0 taskId tkey archivedId).deck.map
              (fun t => t.id)).Nodup) := by
  refine ⟨fun drafts existing tkey => ?_, fun deck later tkey hmoved => ?_,
    fun deck archive p => ?_, fun deck archive undo0 taskId tkey archivedId hnd => ?_⟩
  · unfold addReviewToHomebase
    exact denseIds_normalizeOnDeckIds _
  · by_cases hc : (List.filter (fun t => jsTruthyLe t.dueDateKey tkey) later).length = 0
    · simp only [autosurfaceDueLaterToOnDeck] at hmoved
      rw [if_pos hc] at hmoved
      simp at hmoved
    · simp only [autosurfaceDueLaterToOnDeck]
      rw [if_neg hc]
      exact denseIds_normalizeOnDeckIds _
  · unfold undoLastComplete
    exact denseIds_normalizeOnDeckIds _
  · unfold completeOnDeck
    cases hf : deck.find? (fun t => t.id == taskId) with
    | none => exact hnd
    | some task =>
      exact ((List.filter_sublist deck).map (fun t => t.id)).nodup hnd

/-- Concrete on-deck list for the C2 witness. -/
def wC2Deck : List Task :=
  [{ id := 1, title := "Call dentist", done := false },
   { id := 2, title := "Buy milk", done := false }]

/-- Concrete backlog with one due item for the C2 witness. -/
def wC2Later : List DraftTask :=
  [{ id := "d1", title := "Pay bill", category := .Admin, bucket := .Later,
     dueDateKey := some "2025-06-10" }]

/-- Witness for C2 at concrete inputs: an insert through each of the
three re-indexed operations and one completion delete. -/
theorem reindex_after_mutations_witness :
    denseIds (addReviewToHomebase [] wC2Deck "2025-06-15")
    ∧ denseIds (autosurfaceDueLaterToOnDeck wC2Deck wC2Later "2025-06-15").nextOnDeck
    ∧ denseIds (undoLastComplete wC2Deck []
        (some ⟨{ id := 9, title := "x", done := false }, "arch-1"⟩)).deck
    ∧ ((completeOnDeck wC2Deck [] none 1 "2025-06-15" "arch-2").deck.map
        (fun t => t.id)).Nodup :=
  ⟨reindex_after_mutations.1 [] wC2Deck "2025-06-15",
   reindex_after_mutations.2.1 wC2Deck wC2Later "2025-06-15" (by decide),
   reindex_after_mutations.2.2.1 wC2Deck [] ⟨{ id := 9, title := "x", done := false }, "arch-1"⟩,
   reindex_after_mutations.2.2.2 wC2Deck [] none 1 "2025-06-15" "arch-2" (by decide)⟩

/-- C3 (counterexample): the merge dedups only against the existing
on-deck titles, not among the incoming drafts themselves, so merging
two drafts with the same normalized title `"buy milk"` into an empty
existing list yields two entries with that title, not one. -/
theorem addReview_duplicate_drafts_both_added :
    countNormTasks
        (addReviewToHomebase
          [{ id := "d1", title := "Buy milk", category := .Groceries, bucket := .Later },
           { id := "d2", title := "buy milk ", category := .Groceries, bucket := .Later }]
          [] "2025-06-15")
        "buy milk" = 2 := by
  decide

/-- C3 (amended): for every normalized title, the merged list carries
exactly the existing occurrences plus — only when the title is absent
from the existing list — all incoming drafts with that title.  In
particular merge never inserts a draft whose normalized title already
occurs in the existing list, but duplicates inside the incoming batch
are all inserted. -/
theorem addReview_count_merge (drafts : List DraftTask) (existing : List Task) (tkey n : String) :
    countNormTasks (addReviewToHomebase drafts existing tkey) n
      = countNormTasks existing n
        + (if (existing.map (fun t => normTitle t.title)).contains n then 0
           else countNormDrafts drafts n) := by
  unfold addReviewToHomebase
  rw [countNormTasks_normalizeOnDeckIds]
  unfold countNormTasks
  rw [List.countP_append]
  rw [countNorm_toAdd drafts (existing.map (fun t => normTitle t.title)) (reviewTaskOf tkey)
    (fun d => rfl) n]
  exact Nat.add_comm _ _

/-- Composition used by the complete/undo round trip: complete a task,
then immediately undo while the payload is still pending. -/
def completeThenUndo (deck : List Task) (archive : List ArchivedTask) (undo0 : Option UndoPayload)
    (taskId : Nat) (tk archivedId : String) : EngineState :=
  let c := completeOnDeck deck archive undo0 taskId tk archivedId
  undoLastComplete c.deck c.archive c.undo

/-- C5: completing a present task and undoing within the window puts a
task with the same title, category and due date back at the front of
the on-deck list (its id is re-assigned), removes exactly the archive
entry the completion created (its id being fresh), and restores the
derived completed-today count. -/
theorem complete_undo_round_trip (deck : List Task) (archive : List ArchivedTask)
    (undo0 : Option UndoPayload) (rhythm : List Task) (task : Task) (taskId : Nat)
    (tk archivedId : String)
    (hfind : deck.find? (fun t => t.id == taskId) = some task)
    (hfresh : ∀ e ∈ archive, e.id ≠ archivedId) :
    (∃ t, (completeThenUndo deck archive undo0 taskId tk archivedId).deck.head? = some t ∧
        t.title = task.title ∧ t.category = task.category ∧ t.dueDateKey = task.dueDateKey)
    ∧ (completeThenUndo deck archive undo0 taskId tk archivedId).archive = archive
    ∧ completedToday tk (completeThenUndo deck archive undo0 taskId tk archivedId).archive rhythm
        = completedToday tk archive rhythm := by
  have hstate : completeThenUndo deck archive undo0 taskId tk archivedId
      = ⟨normalizeOnDeckIds (task :: deck.filter (fun t => !(t.id == taskId))),
         (({ id := archivedId, title := task.title, category := task.category,
              completedDateKey := tk } : ArchivedTask) :: archive).filter
           (fun x => !(x.id == archivedId)), none⟩ := by
    unfold completeThenUndo completeOnDeck undoLastComplete
    rw [hfind]
  have harch : (({ id := archivedId, title := task.title, category := task.category,
                   completedDateKey := tk } : ArchivedTask) :: archive).filter
        (fun x => !(x.id == archivedId)) = archive := by
    rw [List.filter_cons]
    simp only [beq_self_eq_true, Bool.not_true, Bool.false_eq_true, if_false]
    rw [List.filter_eq_self]
    intro e he
    simpa using hfresh e he
  rw [hstate, harch]
  refine ⟨⟨{ task with id := 1 }, ?_, rfl, rfl, rfl⟩, rfl, rfl⟩
  rfl

/-- Data-model validity of a task's due date: when present it is a
nonempty DateKey below the `"9999-99-99"` sentinel (every
`YYYY-MM-DD` key is). -/
def validDue (t : Task) : Bool :=
  match t.dueDateKey with
  | some k => !(k == "") && stringLt k "9999-99-99"
  | none => true

/-- Spec-side overdue test of C8: due date present and before today. -/
def specOverdue (tk : String) (t : Task) : Bool :=
  match t.dueDateKey with
  | some k => stringLt k tk
  | none => false

/-- Spec-side composite display key of C8, lexicographic: (a) overdue
rank, (b) due-today rank, (c) missing-last rank paired with the due
key itself, (d) case-insensitive title. -/
def specKey (tk : String) (t : Task) : Int ×ₗ Int ×ₗ (Nat ×ₗ String) ×ₗ String :=
  toLex ((if specOverdue tk t then (0 : Int) else 1),
    toLex ((if t.dueDateKey == some tk then (0 : Int) else 1),
      toLex (toLex ((if t.dueDateKey == none then (1 : Nat) else 0), t.dueDateKey.getD ""),
        toLowerCase t.title)))

theorem jsTruthyLt_eq_specOverdue (tk : String) (t : Task) (h : validDue t = true) :
    jsTruthyLt t.dueDateKey tk = specOverdue tk t := by
  unfold jsTruthyLt specOverdue
  unfold validDue at h
  cases hd : t.dueDateKey with
  | none => rfl
  | some k =>
    rw [hd] at h
    simp only [Bool.and_eq_true] at h
    rcases h with ⟨hk, -⟩
    simp [hk]

theorem validDue_lt_sentinel {t : Task} {k : String} (h : validDue t = true)
    (hd : t.dueDateKey = some k) : k < "9999-99-99" := by
  unfold validDue at h
  rw [hd] at h
  simp only [Bool.and_eq_true] at h
  rcases h with ⟨-, hk⟩
  exact (stringLt_eq_true_iff _ _).mp hk

theorem dispLE_imp_specKey_le (tk : String) (a b : Task)
    (ha : validDue a = true) (hb : validDue b = true) :
    dispLE tk a b → specKey tk a ≤ specKey tk b := by
  intro h
  unfold dispLE at h
  rw [cmpDisplay_le_iff] at h
  unfold dispKey at h
  unfold specKey
  rw [jsTruthyLt_eq_specOverdue tk a ha, jsTruthyLt_eq_specOverdue tk b hb] at h
  simp only [Prod.Lex.le_iff, Prod.Lex.lt_iff, toLex_inj, Prod.mk.injEq] at h ⊢
  rcases h with h1 | ⟨h1, h⟩
  · exact Or.inl h1
  refine Or.inr ⟨h1, ?_⟩
  rcases h with h2 | ⟨h2, h⟩
  · exact Or.inl h2
  refine Or.inr ⟨h2, ?_⟩
  cases hda : a.dueDateKey with
  | none =>
    cases hdb : b.dueDateKey with
    | none =>
      rw [hda, hdb] at h
      simp only [Option.getD_none] at h
      rcases h with h3 | ⟨-, h45⟩
      · exact absurd h3 (lt_irrefl _)
      · have hle : toLowerCase a.title ≤ toLowerCase b.title := by
          rcases h45 with h4 | ⟨h4, -⟩
          · exact le_of_lt h4
          · exact le_of_eq h4
        exact Or.inr ⟨⟨rfl, rfl⟩, hle⟩
    | some l =>
      have hl : l < "9999-99-99" := validDue_lt_sentinel hb hdb
      rw [hda, hdb] at h
      simp only [Option.getD_none, Option.getD_some] at h
      rcases h with h3 | ⟨h3, -⟩
      · exact absurd h3 (not_lt.mpr (le_of_lt hl))
      · exact absurd h3.symm (ne_of_lt hl)
  | some k =>
    cases hdb : b.dueDateKey with
    | none =>
      refine Or.inl (Or.inl ?_)
      have e1 : ((some k == (none : Option String)) : Bool) = false := rfl
      have e2 : (((none : Option String) == (none : Option String)) : Bool) = true := rfl
      rw [e1, e2]
      simp
    | some l =>
      rw [hda, hdb] at h
      simp only [Option.getD_some] at h
      have e3 : ((some k == (none : Option String)) : Bool) = false := rfl
      have e4 : ((some l == (none : Option String)) : Bool) = false := rfl
      rw [e3, e4]
      simp only [Bool.false_eq_true, if_false, Option.getD_some]
      rcases h with h3 | ⟨h3, h45⟩
      · exact Or.inl (Or.inr ⟨by trivial, h3⟩)
      · have hle : toLowerCase a.title ≤ toLowerCase b.title := by
          rcases h45 with h4 | ⟨h4, -⟩
          · exact le_of_lt h4
          · exact le_of_eq h4
        exact Or.inr ⟨⟨by trivial, h3⟩, hle⟩

/-- C8: the display sort of the on-deck screen emits a permutation of
the open (not-done) tasks that is pairwise ordered by the claimed
composite key — overdue first, then due today, then ascending due key
with missing keys last, then case-insensitive title. -/
theorem openTasksSorted_spec (tk : String) (tasks : List Task)
    (hval : ∀ t ∈ tasks, validDue t = true) :
    (openTasksSorted tk tasks).Perm (tasks.filter (fun t => !t.done))
    ∧ List.Pairwise (fun a b => specKey tk a ≤ specKey tk b) (openTasksSorted tk tasks) := by
  refine ⟨List.perm_insertionSort _ _, ?_⟩
  have hsorted : List.Pairwise (dispLE tk) (openTasksSorted tk tasks) :=
    List.sorted_insertionSort (dispLE tk) _
  have hmem : ∀ {t : Task}, t ∈ openTasksSorted tk tasks → t ∈ tasks := by
    intro t ht
    have h1 : t ∈ tasks.filter (fun t => !t.done) :=
      (List.perm_insertionSort (dispLE tk) _).mem_iff.mp ht
    exact (List.mem_filter.mp h1).1
  exact hsorted.imp_of_mem (fun hma hmb hr =>
    dispLE_imp_specKey_le tk _ _ (hval _ (hmem hma)) (hval _ (hmem hmb)) hr)

/-- Past-due demo task of the C8 scenario. -/
def wPast : Task :=
  { id := 1, title := "past chore", done := false, dueDateKey := some "2024-01-01" }

/-- Due-today demo task of the C8 scenario (today = `"2025-06-15"`). -/
def wToday : Task :=
  { id := 2, title := "today chore", done := false, dueDateKey := some "2025-06-15" }

/-- Future-due demo task of the C8 scenario. -/
def wFuture : Task :=
  { id := 3, title := "future chore", done := false, dueDateKey := some "2099-01-01" }

/-- No-due-date demo task of the C8 scenario. -/
def wNoDate : Task :=
  { id := 4, title := "anytime chore", done := false }

/-- Witness for C8 at a concrete input, including the spec's scenario:
fed in reverse, the four demo tasks come out ordered overdue,
due-today, future, no-date. -/
theorem openTasksSorted_spec_witness :
    (∀ t ∈ [wNoDate, wFuture, wToday, wPast], validDue t = true) ∧
      ((openTasksSorted "2025-06-15" [wNoDate, wFuture, wToday, wPast]).Perm
          ([wNoDate, wFuture, wToday, wPast].filter (fun t => !t.done))
        ∧ List.Pairwise (fun a b => specKey "2025-06-15" a ≤ specKey "2025-06-15" b)
            (openTasksSorted "2025-06-15" [wNoDate, wFuture, wToday, wPast]))
      ∧ openTasksSorted "2025-06-15" [wNoDate, wFuture, wToday, wPast]
          = [wPast, wToday, wFuture, wNoDate] :=
  ⟨by decide, openTasksSorted_spec "2025-06-15" [wNoDate, wFuture, wToday, wPast] (by decide),
   by decide⟩

/-- Concrete on-deck task completed and restored in the C5 witness. -/
def wC5Task : Task :=
  { id := 2, title := "Sign permission slip", done := false, category := some .Kids,
    dueDateKey := some "2025-06-15" }

/-- Concrete on-deck list for the C5 witness. -/
def wC5Deck : List Task :=
  [{ id := 1, title := "Call dentist", done := false }, wC5Task]

/-- Concrete pre-existing archive for the C5 witness. -/
def wC5Archive : List ArchivedTask :=
  [{ id := "arch-0", title := "Old chore", completedDateKey := "2025-06-14" }]

/-- Witness for C5 at a concrete input. -/
theorem complete_undo_round_trip_witness :
    (∃ t, (completeThenUndo wC5Deck wC5Archive none 2 "2025-06-15" "arch-9").deck.head? = some t ∧
        t.title = wC5Task.title ∧ t.category = wC5Task.category ∧
        t.dueDateKey = wC5Task.dueDateKey)
    ∧ (completeThenUndo wC5Deck wC5Archive none 2 "2025-06-15" "arch-9").archive = wC5Archive
    ∧ completedToday "2025-06-15"
        (completeThenUndo wC5Deck wC5Archive none 2 "2025-06-15" "arch-9").archive DEFAULT_RHYTHM
        = completedToday "2025-06-15" wC5Archive DEFAULT_RHYTHM :=
  complete_undo_round_trip wC5Deck wC5Archive none DEFAULT_RHYTHM wC5Task 2 "2025-06-15" "arch-9"
    (by decide) (by decide)

/-- C9 (counterexample): a malformed on-deck value makes the whole
load throw — the source parses the on-deck and later keys without a
try/catch — so no fallback happens and the later steps of the load,
the daily rhythm reset included, never execute (the error surfaces to
the hydration handler instead). -/
theorem loadFromStorage_malformed_onDeck_throws :
    loadFromStorage
        ⟨.malformed, .missing, .missing, .missing, .missing, .missing, .missing, .missing,
          .missing⟩ "2025-06-15"
      = .error () := by
  rfl

/-- C9 (amended): the guarded reads do fall back — with every read
delivered and the on-deck and later values well-formed, the load
succeeds even when the rhythm, shopping or archive values are
malformed, the rhythm reset still runs on the fallback rhythm list,
and the shopping list falls back — but a malformed on-deck or later
value, or any rejected read, aborts the load instead of falling
back. -/
theorem loadFromStorage_fallback (s : StoreSnap) (tk : String)
    (hok : anyReadFailed s = false)
    (hdeck : s.rawOnDeck ≠ .malformed) (hlater : s.rawLater ≠ .malformed) :
    ∃ out, loadFromStorage s tk = .ok out ∧
      out.rhythm = (loadRhythmWithReset (parseCaught s.rawRhythm DEFAULT_RHYTHM)
          (resetOpt s.rawRhythmReset) tk).items ∧
      out.rhythmResetPersisted = (loadRhythmWithReset (parseCaught s.rawRhythm DEFAULT_RHYTHM)
          (resetOpt s.rawRhythmReset) tk).persistedReset ∧
      out.shopping = parseCaught s.rawShopping ([] : List ShoppingItem) := by
  have hnf : ¬ (anyReadFailed s = true) := by
    simp [hok]
  have hdf : s.rawOnDeck ≠ .failed := by
    intro h
    have : anyReadFailed s = true := by
      unfold anyReadFailed
      rw [h]
      rfl
    exact hnf this
  have hlf : s.rawLater ≠ .failed := by
    intro h
    have : anyReadFailed s = true := by
      unfold anyReadFailed
      rw [h]
      simp
    exact hnf this
  rcases hd : s.rawOnDeck with _ | _ | _ | deckv
  · exact absurd hd hdf
  case malformed => exact absurd hd hdeck
  all_goals rcases hl : s.rawLater with _ | _ | _ | laterv
  all_goals first
    | exact absurd hl hlf
    | exact absurd hl hlater
    | exact ⟨loadOutcomeOf s _ _ tk,
        by unfold loadFromStorage; rw [if_neg hnf, hd, hl]; rfl, rfl, rfl, rfl⟩

/-- Concrete store snapshot for the C9 witness: rhythm and shopping
malformed, archive read rejected, on-deck and later present/absent. -/
def wC9Snap : StoreSnap :=
  ⟨.val [{ id := 1, title := "Call dentist", done := false }], .missing, .malformed,
    .val "2025-06-14", .missing, .missing, .missing, .malformed, .failed⟩

/-- Witness for C9 at a concrete input. -/
theorem loadFromStorage_fallback_witness :
    (anyReadFailed wC9Snap = false ∧ wC9Snap.rawOnDeck ≠ .malformed ∧
        wC9Snap.rawLater ≠ .malformed) ∧
      ∃ out, loadFromStorage wC9Snap "2025-06-15" = .ok out ∧
        out.rhythm = (loadRhythmWithReset (parseCaught wC9Snap.rawRhythm DEFAULT_RHYTHM)
            (resetOpt wC9Snap.rawRhythmReset) "2025-06-15").items ∧
        out.rhythmResetPersisted
          = (loadRhythmWithReset (parseCaught wC9Snap.rawRhythm DEFAULT_RHYTHM)
              (resetOpt wC9Snap.rawRhythmReset) "2025-06-15").persistedReset ∧
        out.shopping = parseCaught wC9Snap.rawShopping ([] : List ShoppingItem) :=
  ⟨⟨by decide, by decide, by decide⟩,
    loadFromStorage_fallback wC9Snap "2025-06-15" (by decide) (by decide) (by decide)⟩

end Homebase
